import Mathlib

/-!
Shallow embedding of the WOPR Deepgram STT plugin (src/index.ts).

The plugin has two components: a `DeepgramProvider` (config validation, batch
HTTP transcription, health check, session factory) and a `DeepgramSession`
(streaming WebSocket transcription with incremental results and end-of-stream
finalization).  The embedding below translates the pure and state-machine
parts of both into Lean: JavaScript strings become Lean `String`
(characters stand in for UTF-16 code units, which coincide for every literal
appearing in this code), optional fields become `Option`, thrown errors become
`Except`, the event-driven session becomes explicit state passing with an
emitted event list, and the promise/timer interplay of `waitForTranscript`
becomes a small transition system whose steps are the individual callbacks
the JS event loop would run.
-/

namespace Deepgram

/-! ## JavaScript string primitives used by the code -/

/-- Whitespace test backing the JS string operations (`trim`, `\s`). -/
def isWS (c : Char) : Bool := c.isWhitespace

/-- Remove leading and trailing whitespace from a character list.
Models JS `String.prototype.trim`. -/
def trimList (l : List Char) : List Char :=
  ((l.dropWhile isWS).reverse.dropWhile isWS).reverse

/-- JS `s.trim()` on Lean strings. -/
def jsTrim (s : String) : String := String.mk (trimList s.toList)

/-- Strip all trailing slash characters; models `raw.replace(/\/+$/, "")`
in `normalizeBaseUrl`. -/
def stripTrailingSlashes (s : String) : String :=
  String.mk ((s.toList.reverse.dropWhile (fun c => c == '/')).reverse)

/-- `normalizeBaseUrl(baseUrl, fallback)` from src/index.ts:
`const raw = baseUrl?.trim() || fallback; return raw.replace(/\/+$/, "");`.
An absent or all-whitespace base URL falls back (the empty string is falsy). -/
def normalizeBaseUrl (baseUrl : Option String) (fallback : String) : String :=
  let raw := match baseUrl with
    | some b => if jsTrim b = "" then fallback else jsTrim b
    | none => fallback
  stripTrailingSlashes raw

/-- One pass of `text.replace(/\s+/g, " ")`: every maximal run of whitespace
characters becomes a single space.  The flag records whether the previous
character belonged to a whitespace run already replaced. -/
def collapseAux : Bool → List Char → List Char
  | _, [] => []
  | inRun, c :: rest =>
    if isWS c then
      if inRun then collapseAux true rest else ' ' :: collapseAux true rest
    else c :: collapseAux false rest

/-- `text.replace(/\s+/g, " ")` on strings. -/
def collapseWS (s : String) : String := String.mk (collapseAux false s.toList)

/-- The horizontal-ellipsis character appended by `readErrorResponse` when it
truncates a response body. -/
def ellipsisChar : Char := '…'

/-- Body-processing part of `readErrorResponse(res)`: collapse whitespace,
trim, return `none` for an empty result, and truncate to 300 characters with
an appended ellipsis otherwise (`collapsed.slice(0, 300)` + ellipsis).
The surrounding try/catch (a failing `res.text()` also yields `undefined`)
is outside this pure model. -/
def readErrorResponse (body : String) : Option String :=
  let collapsed := jsTrim (collapseWS body)
  if collapsed = "" then none
  else if collapsed.length ≤ 300 then some collapsed
  else some (String.mk (collapsed.toList.take 300) ++ String.mk [ellipsisChar])

/-! ## Provider configuration and validateConfig -/

/-- The resolved provider configuration
(`Required<Omit<DeepgramConfig, "apiKey">> & { apiKey: string }`, with
`baseUrl` kept optional here because `normalizeBaseUrl` accepts `undefined`).
`timeoutMs` is an `Int` so that out-of-range (including negative) values are
expressible, as they are for a JS number used only in comparisons here. -/
structure ProviderConfig where
  apiKey : String
  baseUrl : Option String
  model : String
  language : String
  wordTimestamps : Bool
  timeoutMs : Int
deriving Repr, DecidableEq

/-- `DEFAULT_CONFIG.baseUrl`. -/
def defaultBaseUrl : String := "https://api.deepgram.com/v1"

/-- The `validModels` list inside `validateConfig`. -/
def validModels : List String := ["nova-3", "nova-2", "nova", "enhanced", "base"]

/-- `DeepgramProvider.validateConfig()`:
checks the API key, the model against `validModels`, and the timeout against
the bounds 1000–300000 ms, throwing on the first violation.  Pure: it reads
the config and either returns or throws. -/
def validateConfig (c : ProviderConfig) : Except String Unit :=
  if c.apiKey = "" then
    Except.error "DEEPGRAM_API_KEY is required"
  else if !(validModels.contains c.model) then
    Except.error ("Invalid model: " ++ c.model ++ ". Valid: nova-3, nova-2, nova, enhanced, base")
  else if c.timeoutMs < 1000 || c.timeoutMs > 300000 then
    Except.error ("Invalid timeout: " ++ toString c.timeoutMs ++ "ms (must be 1000-300000)")
  else
    Except.ok ()

/-! ## Per-call options and option merging -/

/-- The `STTOptions` fields this plugin reads (`language`, `wordTimestamps`,
`vadEnabled`); each is optional, `none` standing for an absent key or an
`undefined` value. -/
structure STTOptions where
  language : Option String
  wordTimestamps : Option Bool
  vadEnabled : Option Bool
deriving Repr, DecidableEq

/-- The option object `createSession` hands to the `DeepgramSession`
constructor: `{ language: this.config.language, wordTimestamps:
this.config.wordTimestamps, ...options }`.  Object spread: a key present in
`options` overrides the base entry, an absent key keeps it; `vadEnabled`
comes only from `options`. -/
def mergeSessionOptions (cfg : ProviderConfig) (opts : STTOptions) : STTOptions :=
  { language := some (opts.language.getD cfg.language)
    wordTimestamps := some (opts.wordTimestamps.getD cfg.wordTimestamps)
    vadEnabled := opts.vadEnabled }

/-! ## Deepgram response payloads -/

/-- One transcript alternative (`{ transcript?, confidence? }`).  The
confidence value is only ever passed through, never inspected, so its numeric
type is modelled as `Int`. -/
structure DGAlt where
  transcript : Option String
  confidence : Option Int
deriving Repr, DecidableEq

/-- One channel of a batch response (`{ alternatives? }`). -/
structure DGChannel where
  alternatives : Option (List DGAlt)
deriving Repr, DecidableEq

/-- The `results` object of a batch response (`{ channels? }`). -/
structure DGResults where
  channels : Option (List DGChannel)
deriving Repr, DecidableEq

/-- A parsed `DeepgramTranscriptResponse` (`{ results? }`). -/
structure DGResponse where
  results : Option DGResults
deriving Repr, DecidableEq

/-- `payload.results?.channels?.[0]?.alternatives?.[0]?.transcript`:
each `?.` is an `Option.bind`, each `[0]` a `List.head?`. -/
def topTranscript (p : DGResponse) : Option String :=
  ((((p.results.bind DGResults.channels).bind List.head?).bind
      DGChannel.alternatives).bind List.head?).bind DGAlt.transcript

/-- The observable part of an HTTP `Response` that `transcribe` consumes:
`ok`, `status`, the body as text (for the error path) and the body parsed as
JSON (for the success path).  A success body that fails to parse as JSON
would reject with that parse error before any code modelled here runs; the
claims concern parsed payloads and error bodies. -/
structure BatchResponse where
  ok : Bool
  status : Nat
  body : String
  payload : DGResponse
deriving Repr, DecidableEq

/-- The pure tail of `DeepgramProvider.transcribe` after `fetchWithTimeout`
returns: the non-success branch builds the HTTP-status error message with the
optional truncated body snippet; the success branch extracts and trims the
top transcript alternative and throws "missing transcript" when it is absent
or empty (`if (!transcript)`). -/
def transcribeResult (res : BatchResponse) : Except String String :=
  if res.ok = false then
    Except.error ("Deepgram transcription failed (HTTP " ++ toString res.status ++ ")" ++
      (match readErrorResponse res.body with
        | some detail => ": " ++ detail
        | none => ""))
  else
    match (topTranscript res.payload).map jsTrim with
    | some t => if t = "" then Except.error "Deepgram response missing transcript" else Except.ok t
    | none => Except.error "Deepgram response missing transcript"

/-! ## Streaming session: state, events, message handling -/

/-- WebSocket ready states; `sendAudio` and `endAudio` test
`readyState === WebSocket.OPEN`. -/
inductive ReadyState
  | connecting
  | opened
  | closing
  | closed
deriving Repr, DecidableEq

/-- The mutable fields of a `DeepgramSession`:
`ws` (null or a socket with a ready state), `finalTranscript`, `ended`, and
whether the `partialCallback` and `resolveTranscript` slots are occupied. -/
structure SessionState where
  ws : Option ReadyState
  finalTranscript : String
  ended : Bool
  partialSet : Bool
  resolveSet : Bool
deriving Repr, DecidableEq

/-- A session as `createSession` returns it: connected (socket open),
empty transcript, nothing ended, no callbacks registered. -/
def connectedSession : SessionState :=
  { ws := some ReadyState.opened
    finalTranscript := ""
    ended := false
    partialSet := false
    resolveSet := false }

/-- Errors of the session component, following the spec taxonomy; the code
throws plain `Error`s whose messages are kept here verbatim. -/
inductive SessionError
  | sendError (msg : String)
  | timeoutError (msg : String)
  | connectionError (msg : String)
  | wsError (msg : String)
deriving Repr, DecidableEq

/-- Observable actions a session performs: invoking the partial callback with
a chunk (its wall-clock `timestamp` field is outside this model), invoking
the stored transcript resolver, and sending a frame on the socket. -/
inductive Event
  | chunk (text : String) (isFinal : Bool) (confidence : Option Int)
  | resolvedWait (text : String)
  | sentBinary (audio : List Nat)
  | sentText (payload : String)
deriving Repr, DecidableEq

/-- Inbound streaming message types. -/
inductive MsgType
  | Results
  | Metadata
  | SpeechStarted
  | UtteranceEnd
deriving Repr, DecidableEq

/-- `message.channel` (`{ alternatives? }`). -/
structure StreamChannel where
  alternatives : Option (List DGAlt)
deriving Repr, DecidableEq

/-- A parsed `DeepgramStreamMessage`. -/
structure StreamMessage where
  type : MsgType
  channel : Option StreamChannel
  is_final : Option Bool
  speech_final : Option Bool
deriving Repr, DecidableEq

/-- `message.channel?.alternatives?.[0]`. -/
def firstAlt (m : StreamMessage) : Option DGAlt :=
  (m.channel.bind StreamChannel.alternatives).bind List.head?

/-- `DeepgramSession.finishTranscript()`: call the stored resolver, if any,
with the trimmed accumulated transcript.  It mutates nothing. -/
def finishEvents (s : SessionState) : List Event :=
  if s.resolveSet then [Event.resolvedWait (jsTrim s.finalTranscript)] else []

/-- `this.finalTranscript += (this.finalTranscript ? " " : "") + text`. -/
def appendFinal (acc t : String) : String :=
  acc ++ (if acc = "" then "" else " ") ++ t

/-- The `message` handler installed by `setupMessageHandlers`, as one step of
a transition system: given the session options, the current state, and one
inbound frame (`none` = a frame `JSON.parse` rejected, which is logged and
ignored), produce the next state and the emitted events.
A `Results` frame with a first alternative whose trimmed transcript is
non-empty appends to `finalTranscript` when `is_final || speech_final` and
invokes the partial callback when registered; an `UtteranceEnd` frame calls
`finishTranscript()` exactly when `vadEnabled` and `ended` both hold; every
other frame does nothing. -/
def handleMessage (opts : STTOptions) (s : SessionState) (raw : Option StreamMessage) :
    SessionState × List Event :=
  match raw with
  | none => (s, [])
  | some message =>
    if message.type = MsgType.Results then
      match firstAlt message with
      | some alt =>
        let text := jsTrim (alt.transcript.getD "")
        if text = "" then (s, [])
        else
          let isFinal := message.is_final.getD false || message.speech_final.getD false
          let s1 :=
            if isFinal then { s with finalTranscript := appendFinal s.finalTranscript text }
            else s
          (s1, if s.partialSet then [Event.chunk text isFinal alt.confidence] else [])
      | none => (s, [])
    else if message.type = MsgType.UtteranceEnd then
      if opts.vadEnabled.getD false && s.ended then (s, finishEvents s) else (s, [])
    else
      (s, [])

/-- The `close` handler installed by `setupMessageHandlers`:
`if (this.ended && this.resolveTranscript) this.finishTranscript()`. -/
def handleWsClose (s : SessionState) : SessionState × List Event :=
  if s.ended && s.resolveSet then (s, finishEvents s) else (s, [])

/-- Deliver a list of inbound frames in order, collecting emitted events. -/
def processMessages (opts : STTOptions) (s : SessionState) :
    List (Option StreamMessage) → SessionState × List Event
  | [] => (s, [])
  | m :: ms =>
    let r1 := handleMessage opts s m
    let r2 := processMessages opts r1.1 ms
    (r2.1, r1.2 ++ r2.2)

/-- The `{"type":"CloseStream"}` control frame sent by `endAudio`. -/
def closeStreamPayload : String := "\x7b\"type\":\"CloseStream\"\x7d"

/-- `DeepgramSession.sendAudio(audio)`: throws when the socket is absent or
not open, throws when `ended`, otherwise sends the bytes as one binary
frame. -/
def sendAudio (s : SessionState) (audio : List Nat) : Except SessionError Event :=
  match s.ws with
  | none => Except.error (SessionError.sendError "Deepgram session not connected")
  | some rs =>
    if rs ≠ ReadyState.opened then
      Except.error (SessionError.sendError "Deepgram session not connected")
    else if s.ended then
      Except.error (SessionError.sendError "Session ended, cannot send more audio")
    else
      Except.ok (Event.sentBinary audio)

/-- `DeepgramSession.endAudio()`: set `ended` and, when the socket is open,
send the CloseStream control frame. -/
def endAudio (s : SessionState) : SessionState × List Event :=
  ({ s with ended := true },
    if s.ws = some ReadyState.opened then [Event.sentText closeStreamPayload] else [])

/-- `DeepgramSession.close()`: drop the socket (closing it if present) and
mark the session ended.  Total: it cannot fail in any state. -/
def closeSession (s : SessionState) : SessionState :=
  { s with ws := none, ended := true }

/-! ## Final-fragment bookkeeping (spec-side view for the join property) -/

/-- The final fragment an inbound frame contributes, if any: the trimmed,
non-empty transcript of the first alternative of a `Results` frame flagged
`is_final || speech_final`. -/
def msgFinalFragment (raw : Option StreamMessage) : Option String :=
  match raw with
  | none => none
  | some message =>
    if message.type = MsgType.Results then
      match firstAlt message with
      | some alt =>
        let text := jsTrim (alt.transcript.getD "")
        if text = "" then none
        else if message.is_final.getD false || message.speech_final.getD false then some text
        else none
      | none => none
    else none

/-- All final fragments of a frame sequence, in arrival order. -/
def finalFragments (msgs : List (Option StreamMessage)) : List String :=
  msgs.filterMap msgFinalFragment

/-- A connected session observed after `endAudio()` and a registered wait,
having accumulated the final text "hi". -/
def vadEndedSession : SessionState :=
  { ws := some ReadyState.opened
    finalTranscript := "hi"
    ended := true
    partialSet := false
    resolveSet := true }

/-- A well-formed final `Results` frame carrying the single transcript
alternative `t` (as the backend sends after an utterance is finalized). -/
def finalResultFrame (t : String) : Option StreamMessage :=
  some { type := MsgType.Results
         channel := some { alternatives := some [{ transcript := some t, confidence := none }] }
         is_final := some true
         speech_final := none }

/-- Join strings with a single separating space (no leading or trailing
separator). -/
def joinSp : List String → String
  | [] => ""
  | [t] => t
  | t :: t2 :: ts => t ++ " " ++ joinSp (t2 :: ts)

/-! ## waitForTranscript: promises and timers -/

/-- The lifecycle of one returned promise; a settled promise ignores further
`resolve`/`reject` calls. -/
inductive PromiseState
  | pending
  | resolvedWith (text : String)
  | rejectedWith (err : SessionError)
deriving Repr, DecidableEq

/-- Calling `resolve` on a promise: settles it only if still pending. -/
def settleResolve (p : PromiseState) (t : String) : PromiseState :=
  match p with
  | PromiseState.pending => PromiseState.resolvedWith t
  | _ => p

/-- Calling `reject` on a promise: settles it only if still pending. -/
def settleReject (p : PromiseState) (e : SessionError) : PromiseState :=
  match p with
  | PromiseState.pending => PromiseState.rejectedWith e
  | _ => p

/-- A session together with the promises handed out by `waitForTranscript`
calls and their timers.  Call `i`'s promise is `promises[i]` and its
requested timeout `timeouts[i]`; `stored` is the index whose wrapped resolver
currently sits in `this.resolveTranscript`; `timers` holds the indices whose
`setTimeout` timer has neither fired nor been cleared. -/
structure WaitModel where
  sess : SessionState
  promises : List PromiseState
  timeouts : List Nat
  stored : Option Nat
  timers : List Nat
deriving Repr, DecidableEq

/-- A wait model over a session with no `waitForTranscript` call yet. -/
def freshWaitModel (s : SessionState) : WaitModel :=
  { sess := s, promises := [], timeouts := [], stored := none, timers := [] }

/-- The default `timeoutMs` of `waitForTranscript` (30000). -/
def defaultWaitTimeoutMs : Nat := 30000

/-- Promise of call `i` (pending when out of range). -/
def promiseAt (w : WaitModel) (i : Nat) : PromiseState :=
  w.promises.getD i PromiseState.pending

/-- `DeepgramSession.waitForTranscript(timeoutMs)`: create a new pending
promise, store its resolve/reject pair (overwriting any previous pair), arm a
timer, and wrap the stored resolver so that resolving first clears that
timer. -/
def waitForTranscript (w : WaitModel) (timeoutMs : Nat) : WaitModel :=
  let idx := w.promises.length
  { sess := { w.sess with resolveSet := true }
    promises := w.promises ++ [PromiseState.pending]
    timeouts := w.timeouts ++ [timeoutMs]
    stored := some idx
    timers := w.timers ++ [idx] }

/-- The `setTimeout` callback of call `idx` firing (possible only while its
timer is armed): `reject(new Error("Transcript timeout")); this.close();`. -/
def timerFires (w : WaitModel) (idx : Nat) : WaitModel :=
  if idx ∈ w.timers then
    { w with
      promises := w.promises.set idx
        (settleReject (promiseAt w idx) (SessionError.timeoutError "Transcript timeout"))
      timers := w.timers.erase idx
      sess := closeSession w.sess }
  else w

/-- A finalization path (`finishTranscript` via UtteranceEnd or transport
close) running against the wait bookkeeping: invoke the stored wrapped
resolver, which clears its own timer and resolves its promise with the
trimmed accumulated transcript.  With no stored resolver nothing happens. -/
def finalizeNow (w : WaitModel) : WaitModel :=
  match w.stored with
  | none => w
  | some idx =>
    { w with
      promises := w.promises.set idx
        (settleResolve (promiseAt w idx) (jsTrim w.sess.finalTranscript))
      timers := w.timers.erase idx }

/-- Bookkeeping invariant every reachable wait model satisfies: one timeout
entry per promise, and armed timers refer to allocated promises. -/
def WaitWF (w : WaitModel) : Prop :=
  w.timeouts.length = w.promises.length ∧ ∀ i ∈ w.timers, i < w.promises.length

/-- `true` exactly on promises rejected with some error. -/
def isRejected : PromiseState → Bool
  | PromiseState.rejectedWith _ => true
  | _ => false

/-! ## URL construction -/

/-- Render query parameters in insertion order, as `URL.searchParams`
serializes them (percent-encoding omitted: every key and value this plugin
sets is plain ASCII text, and no claim depends on the encoding). -/
def joinAmp : List (String × String) → String
  | [] => ""
  | [(k, v)] => k ++ "=" ++ v
  | (k, v) :: p :: ps => k ++ "=" ++ v ++ "&" ++ joinAmp (p :: ps)

/-- `""` for no parameters, else a leading `?`. -/
def renderQuery (ps : List (String × String)) : String :=
  match ps with
  | [] => ""
  | _ => "?" ++ joinAmp ps

/-- The fixed streaming endpoint `connect()` always dials. -/
def streamingEndpoint : String := "wss://api.deepgram.com/v1/listen"

/-- The query parameters `connect()` sets, in order: `model`, optional
`language` (trimmed, when non-empty after trimming), `interim_results`,
`punctuate`, `smart_format`, optional `vad_events`, optional
`utterance_end_ms`. -/
def sessionWsParams (model : String) (opts : STTOptions) : List (String × String) :=
  [("model", model)]
  ++ (match opts.language with
      | some l => if jsTrim l ≠ "" then [("language", jsTrim l)] else []
      | none => [])
  ++ [("interim_results", "true"), ("punctuate", "true"), ("smart_format", "true")]
  ++ (if opts.vadEnabled.getD false then [("vad_events", "true")] else [])
  ++ (if opts.wordTimestamps.getD false then [("utterance_end_ms", "1000")] else [])

/-- The URL a session created by `createSession(options)` connects to: the
fixed streaming endpoint plus the query parameters derived from the
provider's model and the merged options. -/
def sessionConnectUrl (cfg : ProviderConfig) (opts : STTOptions) : String :=
  streamingEndpoint ++ renderQuery (sessionWsParams cfg.model (mergeSessionOptions cfg opts))

/-- `options?.language || this.config.language` in `transcribe`: the caller
value wins unless it is absent or the empty string (falsy). -/
def effBatchLanguage (cfg : ProviderConfig) (opts : STTOptions) : String :=
  match opts.language with
  | some l => if l = "" then cfg.language else l
  | none => cfg.language

/-- The query parameters `transcribe` sets, in order: `model` (always the
provider's), optional `language`, `punctuate`, `smart_format`, and
`utterances` when `options?.wordTimestamps || this.config.wordTimestamps`. -/
def transcribeParams (cfg : ProviderConfig) (opts : STTOptions) : List (String × String) :=
  [("model", cfg.model)]
  ++ (if jsTrim (effBatchLanguage cfg opts) ≠ "" then
        [("language", jsTrim (effBatchLanguage cfg opts))] else [])
  ++ [("punctuate", "true"), ("smart_format", "true")]
  ++ (if opts.wordTimestamps.getD false || cfg.wordTimestamps then
        [("utterances", "true")] else [])

/-- The batch endpoint URL `transcribe` posts to. -/
def batchEndpointUrl (cfg : ProviderConfig) (opts : STTOptions) : String :=
  normalizeBaseUrl cfg.baseUrl defaultBaseUrl ++ "/listen" ++ renderQuery (transcribeParams cfg opts)

/-- The URL `healthCheck` probes with GET (query: just `model`). -/
def healthCheckUrl (cfg : ProviderConfig) : String :=
  normalizeBaseUrl cfg.baseUrl defaultBaseUrl ++ "/listen" ++ renderQuery [("model", cfg.model)]

/-! ## Auxiliary notions used by the statements and proofs -/

/-- A character list neither starts nor ends with whitespace. -/
def NoWSEnds (l : List Char) : Prop :=
  (∀ c, l.head? = some c → isWS c = false) ∧ (∀ c, l.getLast? = some c → isWS c = false)

/-- Tail of a space join: the separator-then-fragment repetition. -/
def preJoin : List String → String
  | [] => ""
  | t :: ts => " " ++ t ++ preJoin ts

end Deepgram

namespace Deepgram

/-! ## Theorems -/

/-! ### Helper lemmas about trimming and joining -/

theorem dropWhile_eq_self_of_head (l : List Char)
    (h : ∀ c, l.head? = some c → isWS c = false) : l.dropWhile isWS = l := by
  cases l with
  | nil => rfl
  | cons c t =>
    rw [List.dropWhile_cons, h c rfl]
    simp

theorem trimList_eq_self {l : List Char} (h : NoWSEnds l) : trimList l = l := by
  unfold trimList
  rw [dropWhile_eq_self_of_head l h.1]
  rw [dropWhile_eq_self_of_head l.reverse
    (fun c hc => h.2 c (by rwa [List.head?_reverse] at hc))]
  exact List.reverse_reverse l

theorem head_dropWhile_not_ws (l : List Char) (c : Char)
    (hc : (l.dropWhile isWS).head? = some c) : isWS c = false := by
  induction l with
  | nil => exact absurd hc (by simp)
  | cons a t ih =>
    rw [List.dropWhile_cons] at hc
    cases ha : isWS a with
    | true =>
      rw [ha] at hc
      simp only [if_true] at hc
      exact ih hc
    | false =>
      rw [ha] at hc
      simp only [Bool.false_eq_true, if_false, List.head?_cons, Option.some.injEq] at hc
      rw [← hc]
      exact ha

theorem noWSEnds_trimList (l : List Char) : NoWSEnds (trimList l) := by
  constructor
  · intro c hc
    have hp : trimList l <+: l.dropWhile isWS := by
      have h := List.reverse_prefix.mpr (List.dropWhile_suffix (l := (l.dropWhile isWS).reverse) isWS)
      rwa [List.reverse_reverse] at h
    obtain ⟨u, hu⟩ := hp
    have hbig : (l.dropWhile isWS).head? = some c := by
      rw [← hu]
      cases htl : trimList l with
      | nil => rw [htl] at hc; cases hc
      | cons a t =>
        rw [htl] at hc
        simp only [List.head?_cons, Option.some.injEq] at hc
        simp [← hc]
    exact head_dropWhile_not_ws l c hbig
  · intro c hc
    unfold trimList at hc
    rw [List.getLast?_reverse] at hc
    exact head_dropWhile_not_ws ((l.dropWhile isWS).reverse) c hc

theorem string_mk_toList (s : String) : String.mk s.toList = s := rfl

theorem string_ne_empty_iff (s : String) : s ≠ "" ↔ s.toList ≠ [] := by
  constructor
  · intro h hc
    exact h (String.ext hc)
  · intro h hc
    exact h (congrArg String.data hc)

theorem jsTrim_idem (s : String) : jsTrim (jsTrim s) = jsTrim s := by
  show String.mk (trimList (trimList s.toList)) = String.mk (trimList s.toList)
  exact congrArg String.mk (trimList_eq_self (noWSEnds_trimList s.toList))

theorem joinSp_noWSEnds (fs : List String) (hne : fs ≠ [])
    (h : ∀ f ∈ fs, f ≠ "" ∧ NoWSEnds f.toList) :
    joinSp fs ≠ "" ∧ NoWSEnds (joinSp fs).toList := by
  induction fs with
  | nil => exact absurd rfl hne
  | cons f rest ih =>
    have hf := h f (List.mem_cons_self f rest)
    cases rest with
    | nil => simpa [joinSp] using hf
    | cons g t =>
      have hrest := ih (by simp) (fun x hx => h x (List.mem_cons_of_mem f hx))
      have hj : joinSp (f :: g :: t) = f ++ " " ++ joinSp (g :: t) := rfl
      have hdata : (joinSp (f :: g :: t)).toList
          = f.toList ++ (' ' :: (joinSp (g :: t)).toList) := by
        rw [hj]
        show ((f ++ " ") ++ joinSp (g :: t)).data = f.data ++ (' ' :: (joinSp (g :: t)).data)
        rw [String.data_append, String.data_append, List.append_assoc]
        rfl
      have hfne : f.toList ≠ [] := (string_ne_empty_iff f).mp hf.1
      have hrne : (joinSp (g :: t)).toList ≠ [] := (string_ne_empty_iff _).mp hrest.1
      constructor
      · rw [string_ne_empty_iff, hdata]
        intro hc
        exact hfne (List.append_eq_nil.mp hc).1
      · constructor
        · intro c hc
          rw [hdata, List.head?_append_of_ne_nil _ hfne] at hc
          exact hf.2.1 c hc
        · intro c hc
          rw [hdata, List.getLast?_append_cons,
            show (' ' :: (joinSp (g :: t)).toList) = [' '] ++ (joinSp (g :: t)).toList from rfl,
            List.getLast?_append_of_ne_nil _ hrne] at hc
          exact hrest.2.2 c hc

theorem joinSp_eq_preJoin (t : String) (ts : List String) :
    joinSp (t :: ts) = t ++ preJoin ts := by
  induction ts generalizing t with
  | nil => simp [joinSp, preJoin]
  | cons g gs ih =>
    show t ++ " " ++ joinSp (g :: gs) = t ++ (" " ++ g ++ preJoin gs)
    rw [ih g, String.append_assoc, String.append_assoc]

theorem append_ne_empty_left (a b : String) (ha : a ≠ "") : a ++ b ≠ "" := by
  rw [string_ne_empty_iff] at ha ⊢
  show a.data ++ b.data ≠ []
  intro hc
  exact ha (List.append_eq_nil.mp hc).1

theorem appendFinal_ne (a t : String) (ha : a ≠ "") : appendFinal a t = a ++ " " ++ t := by
  unfold appendFinal
  rw [if_neg ha]

theorem foldl_appendFinal_ne (fs : List String) (a : String) (ha : a ≠ "") :
    List.foldl appendFinal a fs = a ++ preJoin fs := by
  induction fs generalizing a with
  | nil => simp [preJoin]
  | cons f rest ih =>
    show List.foldl appendFinal (appendFinal a f) rest = a ++ (" " ++ f ++ preJoin rest)
    rw [appendFinal_ne a f ha,
      ih (a ++ " " ++ f) (append_ne_empty_left _ _ (append_ne_empty_left _ _ ha)),
      String.append_assoc, String.append_assoc, String.append_assoc]

theorem foldl_appendFinal_join (fs : List String) (h : ∀ f ∈ fs, f ≠ "") :
    List.foldl appendFinal "" fs = joinSp fs := by
  cases fs with
  | nil => rfl
  | cons f rest =>
    have hf : f ≠ "" := h f (List.mem_cons_self f rest)
    show List.foldl appendFinal (appendFinal "" f) rest = joinSp (f :: rest)
    have h0 : appendFinal "" f = f := by simp [appendFinal]
    rw [h0, foldl_appendFinal_ne rest f hf, joinSp_eq_preJoin]

theorem foldl_appendFinal_prefix (fs : List String) (a : String) :
    ∃ rest, List.foldl appendFinal a fs = a ++ rest := by
  induction fs generalizing a with
  | nil => exact ⟨"", by simp⟩
  | cons f t ih =>
    obtain ⟨r, hr⟩ := ih (appendFinal a f)
    refine ⟨(if a = "" then "" else " ") ++ f ++ r, ?_⟩
    show List.foldl appendFinal (appendFinal a f) t = _
    rw [hr]
    unfold appendFinal
    rw [String.append_assoc, String.append_assoc, String.append_assoc]

theorem jsTrim_joinSp (fs : List String)
    (h : ∀ f ∈ fs, f ≠ "" ∧ NoWSEnds f.toList) :
    jsTrim (joinSp fs) = joinSp fs := by
  cases fs with
  | nil => rfl
  | cons f t =>
    have hj := joinSp_noWSEnds (f :: t) (by simp) h
    show String.mk (trimList (joinSp (f :: t)).toList) = joinSp (f :: t)
    rw [trimList_eq_self hj.2]
    exact string_mk_toList _

theorem handleMessage_finalTranscript (opts : STTOptions) (s : SessionState)
    (raw : Option StreamMessage) :
    (handleMessage opts s raw).1.finalTranscript =
      (match msgFinalFragment raw with
        | some t => appendFinal s.finalTranscript t
        | none => s.finalTranscript) := by
  cases raw with
  | none => rfl
  | some message =>
    by_cases hR : message.type = MsgType.Results
    · simp only [handleMessage, msgFinalFragment, hR, if_true]
      cases firstAlt message with
      | none => rfl
      | some alt =>
        by_cases htext : jsTrim (alt.transcript.getD "") = ""
        · simp [htext]
        · simp only [htext, if_false, if_neg htext]
          cases hfin : message.is_final.getD false || message.speech_final.getD false with
          | true => simp [hfin]
          | false => simp [hfin]
    · have h1 : msgFinalFragment (some message) = none := by
        simp [msgFinalFragment, hR]
      rw [h1]
      by_cases hU : message.type = MsgType.UtteranceEnd
      · have h2 : handleMessage opts s (some message)
            = (if opts.vadEnabled.getD false && s.ended then (s, finishEvents s)
                else (s, [])) := by
          simp [handleMessage, hR, hU]
        rw [h2]
        split <;> rfl
      · have h2 : handleMessage opts s (some message) = (s, []) := by
          simp [handleMessage, hR, hU]
        rw [h2]

theorem processMessages_foldl (opts : STTOptions) (s : SessionState)
    (msgs : List (Option StreamMessage)) :
    (processMessages opts s msgs).1.finalTranscript
      = List.foldl appendFinal s.finalTranscript (finalFragments msgs) := by
  induction msgs generalizing s with
  | nil => rfl
  | cons m ms ih =>
    show (processMessages opts (handleMessage opts s m).1 ms).1.finalTranscript = _
    rw [ih]
    simp only [finalFragments, List.filterMap_cons]
    cases hm : msgFinalFragment m with
    | none =>
      rw [handleMessage_finalTranscript opts s m, hm]
    | some t =>
      rw [handleMessage_finalTranscript opts s m, hm]
      rfl

theorem processMessages_append (opts : STTOptions) (s : SessionState)
    (xs ys : List (Option StreamMessage)) :
    (processMessages opts s (xs ++ ys)).1
      = (processMessages opts (processMessages opts s xs).1 ys).1 := by
  induction xs generalizing s with
  | nil => rfl
  | cons m ms ih =>
    show (processMessages opts (handleMessage opts s m).1 (ms ++ ys)).1 = _
    rw [ih]
    rfl

theorem msgFinalFragment_trimmed (raw : Option StreamMessage) (t : String)
    (ht : msgFinalFragment raw = some t) : t ≠ "" ∧ NoWSEnds t.toList := by
  cases raw with
  | none => cases ht
  | some message =>
    by_cases hR : message.type = MsgType.Results
    · simp only [msgFinalFragment, hR, if_true] at ht
      cases halt : firstAlt message with
      | none => rw [halt] at ht; cases ht
      | some alt =>
        rw [halt] at ht
        by_cases htext : jsTrim (alt.transcript.getD "") = ""
        · simp [htext] at ht
        · simp only [htext, if_false, if_neg htext] at ht
          cases hfin : message.is_final.getD false || message.speech_final.getD false with
          | false => rw [hfin] at ht; simp at ht
          | true =>
            rw [hfin] at ht
            simp only [if_true, Option.some.injEq] at ht
            rw [← ht]
            exact ⟨htext, noWSEnds_trimList _⟩
    · simp [msgFinalFragment, hR] at ht

theorem finalFragments_facts (msgs : List (Option StreamMessage)) :
    ∀ t ∈ finalFragments msgs, t ≠ "" ∧ NoWSEnds t.toList := by
  intro t ht
  rw [finalFragments, List.mem_filterMap] at ht
  obtain ⟨m, -, hm⟩ := ht
  exact msgFinalFragment_trimmed m t hm

/-! ### C1: final transcript accumulation -/

/-- C1.  Over any inbound frame sequence delivered to a connected session,
the accumulated `finalTranscript` is exactly the final fragments joined in
arrival order with a single space; it carries no leading or trailing
whitespace (trimming it, as `finishTranscript` does at finalization, is the
identity); the accumulation is append-only (processing further frames only
appends, never truncates or reorders); and in particular the final fragments
"hello" then "world" yield exactly "hello world". -/
theorem accumulatedFinalTranscript_spec (opts : STTOptions)
    (msgs more : List (Option StreamMessage)) :
    (processMessages opts connectedSession msgs).1.finalTranscript
        = joinSp (finalFragments msgs)
    ∧ jsTrim ((processMessages opts connectedSession msgs).1.finalTranscript)
        = (processMessages opts connectedSession msgs).1.finalTranscript
    ∧ (∃ rest, (processMessages opts connectedSession (msgs ++ more)).1.finalTranscript
        = (processMessages opts connectedSession msgs).1.finalTranscript ++ rest)
    ∧ (processMessages opts connectedSession
        [finalResultFrame "hello", finalResultFrame "world"]).1.finalTranscript
        = "hello world" := by
  have hjoin : (processMessages opts connectedSession msgs).1.finalTranscript
      = joinSp (finalFragments msgs) := by
    rw [processMessages_foldl]
    exact foldl_appendFinal_join _ (fun f hf => (finalFragments_facts msgs f hf).1)
  refine ⟨hjoin, ?_, ?_, ?_⟩
  · rw [hjoin]
    exact jsTrim_joinSp _ (finalFragments_facts msgs)
  · rw [processMessages_append, processMessages_foldl]
    exact foldl_appendFinal_prefix _ _
  · rfl

/-! ### C2: UtteranceEnd finalization -/

/-- C2.  An `UtteranceEnd` frame: when voice-activity-detection is enabled
and `endAudio()` has set `ended`, the handler calls `finishTranscript()`
right away — the stored wait resolver, if any, is invoked with the trimmed
accumulated text, the state (in particular the socket) is untouched, so no
transport close is involved; when VAD is off or end-of-audio has not been
signaled, the frame does nothing.  At the promise level, that resolver
invocation resolves the outstanding pending promise with the accumulated
text and leaves the session state (including the socket) as it was. -/
theorem utteranceEnd_finalization_spec (opts : STTOptions) (s : SessionState)
    (message : StreamMessage) (ht : message.type = MsgType.UtteranceEnd) :
    (opts.vadEnabled.getD false = true → s.ended = true →
      handleMessage opts s (some message)
        = (s, if s.resolveSet then [Event.resolvedWait (jsTrim s.finalTranscript)] else []))
    ∧ ((opts.vadEnabled.getD false = false ∨ s.ended = false) →
      handleMessage opts s (some message) = (s, []))
    ∧ (∀ (w : WaitModel) (i : Nat), w.stored = some i → i < w.promises.length →
        promiseAt w i = PromiseState.pending →
        promiseAt (finalizeNow w) i
            = PromiseState.resolvedWith (jsTrim w.sess.finalTranscript)
          ∧ (finalizeNow w).sess = w.sess) := by
  have hne : message.type ≠ MsgType.Results := by rw [ht]; intro hc; cases hc
  refine ⟨?_, ?_, ?_⟩
  · intro hv he
    simp [handleMessage, hne, ht, hv, he, finishEvents]
  · rintro (h | h) <;> simp [handleMessage, hne, ht, h]
  · intro w i hs hlt hp
    constructor
    · unfold finalizeNow
      rw [hs]
      simp only [promiseAt] at hp ⊢
      rw [hp]
      simp only [List.getD_eq_getElem?_getD, List.getElem?_set_self hlt, Option.getD_some]
      rfl
    · simp [finalizeNow, hs]

theorem utteranceEnd_finalization_spec_witness :
    handleMessage ⟨none, none, some true⟩ vadEndedSession
        (some ⟨MsgType.UtteranceEnd, none, none, none⟩)
      = (vadEndedSession,
          if vadEndedSession.resolveSet then [Event.resolvedWait (jsTrim "hi")] else []) :=
  (utteranceEnd_finalization_spec ⟨none, none, some true⟩ vadEndedSession
    ⟨MsgType.UtteranceEnd, none, none, none⟩ rfl).1 rfl rfl

/-! ### C4: sendAudio -/

/-- C4.  `sendAudio` throws a send error (it never silently no-ops and never
silently succeeds) exactly when the socket is not currently open or
end-of-audio has been signaled; otherwise it forwards the bytes as a single
binary frame. -/
theorem sendAudio_spec (s : SessionState) (audio : List Nat) :
    ((s.ws ≠ some ReadyState.opened ∨ s.ended = true) →
      ∃ msg, sendAudio s audio = Except.error (SessionError.sendError msg))
    ∧ (s.ws = some ReadyState.opened → s.ended = false →
      sendAudio s audio = Except.ok (Event.sentBinary audio)) := by
  constructor
  · intro h
    match hws : s.ws with
    | none => exact ⟨"Deepgram session not connected", by simp [sendAudio, hws]⟩
    | some rs =>
      by_cases hrs : rs = ReadyState.opened
      · subst hrs
        rcases h with h | h
        · exact absurd hws h
        · exact ⟨"Session ended, cannot send more audio", by simp [sendAudio, hws, h]⟩
      · exact ⟨"Deepgram session not connected", by simp [sendAudio, hws, hrs]⟩
  · intro hws he
    simp [sendAudio, hws, he]

/-! ### C3: waitForTranscript timeout vs finalization -/

/-- C3.  A `waitForTranscript(timeoutMs)` call registers a pending promise
with an armed timer for the requested duration (`defaultWaitTimeoutMs =
30000` when the caller passes none).  If the timer fires before any
finalization, the promise is rejected with the timeout error and the session
is force-closed (socket dropped, session marked ended).  If finalization
occurs first, the wrapped resolver clears the timer and resolves the promise
with the accumulated, trimmed final text. -/
theorem waitForTranscript_spec (w : WaitModel) (timeoutMs : Nat) (hwf : WaitWF w) :
    (w.promises.length ∈ (waitForTranscript w timeoutMs).timers
      ∧ (waitForTranscript w timeoutMs).timeouts.getD w.promises.length 0 = timeoutMs
      ∧ promiseAt (waitForTranscript w timeoutMs) w.promises.length = PromiseState.pending)
    ∧ (promiseAt (timerFires (waitForTranscript w timeoutMs) w.promises.length)
          w.promises.length
          = PromiseState.rejectedWith (SessionError.timeoutError "Transcript timeout")
      ∧ (timerFires (waitForTranscript w timeoutMs) w.promises.length).sess.ws = none
      ∧ (timerFires (waitForTranscript w timeoutMs) w.promises.length).sess.ended = true)
    ∧ (promiseAt (finalizeNow (waitForTranscript w timeoutMs)) w.promises.length
          = PromiseState.resolvedWith (jsTrim w.sess.finalTranscript)
      ∧ w.promises.length ∉ (finalizeNow (waitForTranscript w timeoutMs)).timers
      ∧ defaultWaitTimeoutMs = 30000) := by
  have hidx : promiseAt (waitForTranscript w timeoutMs) w.promises.length
      = PromiseState.pending := by
    simp only [waitForTranscript, promiseAt, List.getD_eq_getElem?_getD,
      List.getElem?_concat_length, Option.getD_some]
  have hmem : w.promises.length ∈ (waitForTranscript w timeoutMs).timers := by
    simp [waitForTranscript]
  have hnot : w.promises.length ∉ w.timers := by
    intro hc
    exact absurd (hwf.2 _ hc) (lt_irrefl _)
  have hlt : w.promises.length < (waitForTranscript w timeoutMs).promises.length := by
    simp [waitForTranscript]
  have htime : (waitForTranscript w timeoutMs).timeouts.getD w.promises.length 0
      = timeoutMs := by
    simp only [waitForTranscript]
    rw [← hwf.1]
    simp only [List.getD_eq_getElem?_getD, List.getElem?_concat_length, Option.getD_some]
  have hst : (waitForTranscript w timeoutMs).stored = some w.promises.length := rfl
  have htf : timerFires (waitForTranscript w timeoutMs) w.promises.length
      = { waitForTranscript w timeoutMs with
          promises := (waitForTranscript w timeoutMs).promises.set w.promises.length
            (settleReject (promiseAt (waitForTranscript w timeoutMs) w.promises.length)
              (SessionError.timeoutError "Transcript timeout"))
          timers := (waitForTranscript w timeoutMs).timers.erase w.promises.length
          sess := closeSession (waitForTranscript w timeoutMs).sess } := by
    unfold timerFires
    rw [if_pos hmem]
  have hfn : finalizeNow (waitForTranscript w timeoutMs)
      = { waitForTranscript w timeoutMs with
          promises := (waitForTranscript w timeoutMs).promises.set w.promises.length
            (settleResolve (promiseAt (waitForTranscript w timeoutMs) w.promises.length)
              (jsTrim (waitForTranscript w timeoutMs).sess.finalTranscript))
          timers := (waitForTranscript w timeoutMs).timers.erase w.promises.length } := rfl
  refine ⟨⟨hmem, htime, hidx⟩, ⟨?_, ?_, ?_⟩, ⟨?_, ?_, rfl⟩⟩
  · rw [htf, hidx]
    simp only [promiseAt, List.getD_eq_getElem?_getD, List.getElem?_set_self hlt,
      Option.getD_some]
    rfl
  · rw [htf]
    rfl
  · rw [htf]
    rfl
  · rw [hfn, hidx]
    simp only [promiseAt, List.getD_eq_getElem?_getD, List.getElem?_set_self hlt,
      Option.getD_some]
    rfl
  · rw [hfn]
    show w.promises.length ∉ (w.timers ++ [w.promises.length]).erase w.promises.length
    rw [List.erase_append_right _ hnot, List.erase_cons_head, List.append_nil]
    exact hnot

theorem waitForTranscript_spec_witness :
    promiseAt (timerFires (waitForTranscript (freshWaitModel connectedSession) 100) 0) 0
      = PromiseState.rejectedWith (SessionError.timeoutError "Transcript timeout") :=
  (waitForTranscript_spec (freshWaitModel connectedSession) 100 ⟨rfl, by decide⟩).2.1.1

/-! ### C5: a second concurrent waitForTranscript call -/

/-- C5 counterexample.  On a fresh connected session, call
`waitForTranscript(100)` and then, while that wait is outstanding,
`waitForTranscript(200)`.  The claim says the second call is rejected; in
the code it is not: the second promise is pending (not rejected) and the
stored resolver now belongs to the second call. -/
theorem second_wait_not_rejected :
    isRejected (promiseAt (waitForTranscript (waitForTranscript
        (freshWaitModel connectedSession) 100) 200) 1) = false
    ∧ (waitForTranscript (waitForTranscript (freshWaitModel connectedSession) 100) 200).stored
        = some 1
    ∧ promiseAt (waitForTranscript (waitForTranscript
        (freshWaitModel connectedSession) 100) 200) 0 = PromiseState.pending :=
  ⟨rfl, rfl, rfl⟩

/-- C5 amended.  A second `waitForTranscript` call while one wait is
outstanding is not rejected: it supersedes the first by overwriting the
stored resolver with its own.  The first wait's promise is untouched by the
second call and its timer stays armed, so the first wait is settled only when
its own timer fires, rejecting it with the timeout error and force-closing
the session. -/
theorem second_wait_supersedes (w : WaitModel) (i t2 : Nat)
    (_hs : w.stored = some i) (hwf : WaitWF w) (hi : i ∈ w.timers)
    (hp : promiseAt w i = PromiseState.pending) :
    (waitForTranscript w t2).stored = some w.promises.length
    ∧ promiseAt (waitForTranscript w t2) i = promiseAt w i
    ∧ i ∈ (waitForTranscript w t2).timers
    ∧ promiseAt (timerFires (waitForTranscript w t2) i) i
        = PromiseState.rejectedWith (SessionError.timeoutError "Transcript timeout")
    ∧ (timerFires (waitForTranscript w t2) i).sess.ws = none := by
  have hilt : i < w.promises.length := hwf.2 i hi
  have hpres : promiseAt (waitForTranscript w t2) i = promiseAt w i := by
    simp only [waitForTranscript, promiseAt, List.getD_eq_getElem?_getD,
      List.getElem?_append_left hilt]
  have hmem2 : i ∈ (waitForTranscript w t2).timers := by
    simp only [waitForTranscript, List.mem_append]
    exact Or.inl hi
  have hlt2 : i < (waitForTranscript w t2).promises.length := by
    simp only [waitForTranscript, List.length_append, List.length_cons, List.length_nil]
    omega
  have htf : timerFires (waitForTranscript w t2) i
      = { waitForTranscript w t2 with
          promises := (waitForTranscript w t2).promises.set i
            (settleReject (promiseAt (waitForTranscript w t2) i)
              (SessionError.timeoutError "Transcript timeout"))
          timers := (waitForTranscript w t2).timers.erase i
          sess := closeSession (waitForTranscript w t2).sess } := by
    unfold timerFires
    rw [if_pos hmem2]
  refine ⟨rfl, hpres, hmem2, ?_, ?_⟩
  · rw [htf, hpres, hp]
    simp only [promiseAt, List.getD_eq_getElem?_getD, List.getElem?_set_self hlt2,
      Option.getD_some]
    rfl
  · rw [htf]
    rfl

theorem second_wait_supersedes_witness :
    (waitForTranscript (waitForTranscript (freshWaitModel connectedSession) 100) 200).stored
      = some 1 :=
  (second_wait_supersedes (waitForTranscript (freshWaitModel connectedSession) 100) 0 200
    rfl ⟨rfl, by decide⟩ (by decide) rfl).1

theorem sendAudio_spec_witness :
    (∃ msg, sendAudio { connectedSession with ended := true } [7]
        = Except.error (SessionError.sendError msg))
    ∧ sendAudio connectedSession [7] = Except.ok (Event.sentBinary [7]) :=
  ⟨(sendAudio_spec { connectedSession with ended := true } [7]).1 (Or.inr rfl),
    (sendAudio_spec connectedSession [7]).2 rfl rfl⟩

/-! ### C6: success response with no usable transcript -/

/-- C6.  When the HTTP response is a success but the top transcript
alternative is absent or trims to the empty string, `transcribe` rejects
with the missing-transcript error; and on no input does it resolve with an
empty string. -/
theorem transcribe_missingTranscript_spec (res : BatchResponse)
    (hok : res.ok = true)
    (hmt : topTranscript res.payload = none
      ∨ ∃ t, topTranscript res.payload = some t ∧ jsTrim t = "") :
    transcribeResult res = Except.error "Deepgram response missing transcript"
    ∧ (∀ (r : BatchResponse) (out : String), transcribeResult r = Except.ok out → out ≠ "") := by
  constructor
  · rcases hmt with h | ⟨t, ht, htr⟩
    · simp [transcribeResult, hok, h]
    · simp [transcribeResult, hok, ht, htr]
  · intro r out hr
    unfold transcribeResult at hr
    by_cases hro : r.ok = false
    · rw [if_pos hro] at hr
      cases hr
    · rw [if_neg hro] at hr
      cases hmtt : (topTranscript r.payload).map jsTrim with
      | none => rw [hmtt] at hr; cases hr
      | some t =>
        rw [hmtt] at hr
        have hr2 : (if t = "" then
              (Except.error "Deepgram response missing transcript" : Except String String)
            else Except.ok t) = Except.ok out := hr
        by_cases hte : t = ""
        · rw [if_pos hte] at hr2
          cases hr2
        · rw [if_neg hte] at hr2
          cases hr2
          exact hte

theorem transcribe_missingTranscript_spec_witness :
    transcribeResult ⟨true, 200, "", ⟨none⟩⟩
      = Except.error "Deepgram response missing transcript" :=
  (transcribe_missingTranscript_spec ⟨true, 200, "", ⟨none⟩⟩ rfl (Or.inl rfl)).1

/-! ### C7: non-success status error message -/

/-- C7.  On a non-success HTTP status, `transcribe` rejects with an error
whose message embeds the numeric status code, followed — whenever the
collapsed response body is non-empty — by a snippet of that body; the
snippet is the whitespace-collapsed, trimmed body itself when that is at
most 300 characters, and otherwise its first 300 characters with a single
appended ellipsis character (total 301). -/
theorem transcribe_httpError_spec (res : BatchResponse) (hok : res.ok = false) :
    (∃ suffix, transcribeResult res = Except.error
      ("Deepgram transcription failed (HTTP " ++ toString res.status ++ ")" ++ suffix))
    ∧ (∀ d, readErrorResponse res.body = some d →
        transcribeResult res = Except.error
          ("Deepgram transcription failed (HTTP " ++ toString res.status ++ ")" ++ (": " ++ d)))
    ∧ (∀ d, readErrorResponse res.body = some d →
        (d = jsTrim (collapseWS res.body) ∧ d.length ≤ 300) ∨
        (d = String.mk ((jsTrim (collapseWS res.body)).toList.take 300)
              ++ String.mk [ellipsisChar]
          ∧ d.length = 301 ∧ 300 < (jsTrim (collapseWS res.body)).length)) := by
  refine ⟨?_, ?_, ?_⟩
  · refine ⟨(match readErrorResponse res.body with
      | some detail => ": " ++ detail
      | none => ""), ?_⟩
    unfold transcribeResult
    rw [if_pos hok]
  · intro d hd
    unfold transcribeResult
    rw [if_pos hok, hd]
  · intro d hd
    unfold readErrorResponse at hd
    by_cases hc : jsTrim (collapseWS res.body) = ""
    · rw [if_pos hc] at hd
      cases hd
    · rw [if_neg hc] at hd
      by_cases hlen : (jsTrim (collapseWS res.body)).length ≤ 300
      · rw [if_pos hlen] at hd
        cases hd
        exact Or.inl ⟨rfl, hlen⟩
      · rw [if_neg hlen] at hd
        cases hd
        have hgt : 300 < (jsTrim (collapseWS res.body)).length := Nat.lt_of_not_le hlen
        refine Or.inr ⟨rfl, ?_, hgt⟩
        rw [String.length_append]
        have h1 : (String.mk ((jsTrim (collapseWS res.body)).toList.take 300)).length = 300 := by
          show ((jsTrim (collapseWS res.body)).toList.take 300).length = 300
          rw [List.length_take]
          exact Nat.min_eq_left (Nat.le_of_lt hgt)
        rw [h1]
        rfl

/-! ### C9: option precedence -/

/-- C9 counterexample.  With provider default `wordTimestamps = true` and a
caller passing `wordTimestamps: false` to `transcribe`, the claim says the
caller's disabling value takes effect (no `utterances` parameter); the code
ORs the two, so `utterances=true` is still sent. -/
theorem transcribe_callerDisable_ignored :
    (⟨"k", none, "nova-3", "en", true, 30000⟩ : ProviderConfig).wordTimestamps = true
    ∧ (⟨some "en", some false, none⟩ : STTOptions).wordTimestamps = some false
    ∧ ("utterances", "true") ∈ transcribeParams ⟨"k", none, "nova-3", "en", true, 30000⟩
        ⟨some "en", some false, none⟩ := by
  refine ⟨rfl, rfl, ?_⟩
  decide

/-- C9 amended.  In `createSession`, the object spread makes a caller-supplied
value win for every key present, including a disabling `false`.  In
`transcribe`, a caller-supplied non-empty language wins, but the
word-timestamp flag is OR-ed with the provider default, so a caller-supplied
`true` enables `utterances` while a caller-supplied `false` cannot disable an
enabled default; the model is always the provider's configured one. -/
theorem option_precedence_spec (cfg : ProviderConfig) (opts : STTOptions) :
    (∀ l, opts.language = some l → (mergeSessionOptions cfg opts).language = some l)
    ∧ (∀ b, opts.wordTimestamps = some b →
        (mergeSessionOptions cfg opts).wordTimestamps = some b)
    ∧ (opts.language = none → (mergeSessionOptions cfg opts).language = some cfg.language)
    ∧ (opts.wordTimestamps = none →
        (mergeSessionOptions cfg opts).wordTimestamps = some cfg.wordTimestamps)
    ∧ (∀ l, opts.language = some l → l ≠ "" → effBatchLanguage cfg opts = l)
    ∧ (("utterances", "true") ∈ transcribeParams cfg opts ↔
        (opts.wordTimestamps = some true ∨ cfg.wordTimestamps = true)) := by
  refine ⟨?_, ?_, ?_, ?_, ?_, ?_⟩
  · intro l hl
    simp [mergeSessionOptions, hl]
  · intro b hb
    simp [mergeSessionOptions, hb]
  · intro hl
    simp [mergeSessionOptions, hl]
  · intro hb
    simp [mergeSessionOptions, hb]
  · intro l hl hne
    simp [effBatchLanguage, hl, hne]
  · have hmemiff : ("utterances", "true") ∈ transcribeParams cfg opts
        ↔ (opts.wordTimestamps.getD false || cfg.wordTimestamps) = true := by
      unfold transcribeParams
      constructor
      · intro hmem
        by_cases hU : (opts.wordTimestamps.getD false || cfg.wordTimestamps) = true
        · exact hU
        · exfalso
          rw [if_neg hU, List.append_nil] at hmem
          simp only [List.mem_append, List.mem_cons, List.not_mem_nil, or_false] at hmem
          rcases hmem with (h | h) | (h | h)
          · exact absurd (congrArg Prod.fst h) (show ¬("utterances" = "model") by decide)
          · by_cases hL : jsTrim (effBatchLanguage cfg opts) = ""
            · rw [if_neg (fun hc => hc hL)] at h
              simp at h
            · rw [if_pos hL] at h
              simp only [List.mem_singleton] at h
              exact absurd (congrArg Prod.fst h) (show ¬("utterances" = "language") by decide)
          · exact absurd (congrArg Prod.fst h) (show ¬("utterances" = "punctuate") by decide)
          · exact absurd (congrArg Prod.fst h) (show ¬("utterances" = "smart_format") by decide)
      · intro hU
        rw [if_pos hU]
        simp
    have hoptiff : (opts.wordTimestamps.getD false || cfg.wordTimestamps) = true
        ↔ (opts.wordTimestamps = some true ∨ cfg.wordTimestamps = true) := by
      cases ho : opts.wordTimestamps with
      | none => simp
      | some b => cases b <;> simp
    exact hmemiff.trans hoptiff

theorem option_precedence_spec_witness :
    (mergeSessionOptions ⟨"k", none, "nova-3", "en", true, 30000⟩
        ⟨some "es", some false, none⟩).wordTimestamps = some false :=
  (option_precedence_spec ⟨"k", none, "nova-3", "en", true, 30000⟩
    ⟨some "es", some false, none⟩).2.1 false rfl

/-! ### C10: the streaming endpoint ignores baseUrl -/

/-- C10.  The streaming URL a session dials is the fixed
`wss://api.deepgram.com/v1/listen` (plus query parameters) for every
configured `baseUrl`: replacing `baseUrl` leaves it unchanged, while the
batch and health-check URLs are built from the normalized `baseUrl`. -/
theorem streaming_url_fixed (cfg : ProviderConfig) (b : Option String) (opts : STTOptions) :
    sessionConnectUrl { cfg with baseUrl := b } opts = sessionConnectUrl cfg opts
    ∧ (∃ rest, sessionConnectUrl cfg opts = "wss://api.deepgram.com/v1/listen" ++ rest)
    ∧ batchEndpointUrl cfg opts
        = normalizeBaseUrl cfg.baseUrl defaultBaseUrl ++ "/listen"
          ++ renderQuery (transcribeParams cfg opts)
    ∧ healthCheckUrl cfg
        = normalizeBaseUrl cfg.baseUrl defaultBaseUrl ++ "/listen"
          ++ renderQuery [("model", cfg.model)] :=
  ⟨rfl, ⟨renderQuery (sessionWsParams cfg.model (mergeSessionOptions cfg opts)), rfl⟩, rfl, rfl⟩

theorem transcribe_httpError_spec_witness :
    transcribeResult ⟨false, 401, "Unauthorized", ⟨none⟩⟩
      = Except.error ("Deepgram transcription failed (HTTP "
          ++ toString (401 : Nat) ++ ")" ++ (": " ++ "Unauthorized")) :=
  (transcribe_httpError_spec ⟨false, 401, "Unauthorized", ⟨none⟩⟩ rfl).2.1 "Unauthorized" rfl

/-- C8.  `validateConfig` succeeds exactly on the documented model set
{nova-3, nova-2, nova, enhanced, base} and exactly the documented timeout
range 1000–300000 ms, given a present credential; outside either it throws.
It is a pure function of the config (the embedding is a total function with
no effects beyond the returned error). -/
theorem validateConfig_ok_iff (c : ProviderConfig) (hk : c.apiKey ≠ "") :
    validateConfig c = Except.ok () ↔
      (c.model ∈ validModels ∧ 1000 ≤ c.timeoutMs ∧ c.timeoutMs ≤ 300000) := by
  simp only [validateConfig, hk, if_false, List.contains, List.elem_eq_mem]
  split
  next h =>
    simp only [Bool.not_eq_true', decide_eq_false_iff_not] at h
    simp only [reduceCtorEq, false_iff]
    rintro ⟨hm, -⟩
    exact h hm
  next h =>
    simp only [Bool.not_eq_true', decide_eq_false_iff_not, not_not] at h
    split
    next ht =>
      simp only [Bool.or_eq_true, decide_eq_true_eq] at ht
      simp only [reduceCtorEq, false_iff]
      rintro ⟨-, h1, h2⟩
      omega
    next ht =>
      simp only [Bool.or_eq_true, decide_eq_true_eq, not_or, not_lt] at ht
      simp only [true_iff]
      exact ⟨h, ht.1, ht.2⟩

theorem validateConfig_ok_iff_witness :
    (⟨"k", none, "nova-3", "en", false, 30000⟩ : ProviderConfig).apiKey ≠ "" ∧
      (validateConfig ⟨"k", none, "nova-3", "en", false, 30000⟩ = Except.ok () ↔
        ("nova-3" ∈ validModels ∧ (1000 : Int) ≤ 30000 ∧ (30000 : Int) ≤ 300000)) :=
  ⟨by decide, validateConfig_ok_iff ⟨"k", none, "nova-3", "en", false, 30000⟩ (by decide)⟩

end Deepgram
